import Mathlib

/-!
Shallow embedding of the 6502-rs emulator core (src/address.rs, src/registers.rs,
src/machine.rs), together with theorems settling the specification claims about it.

Machine integers are modelled as `Nat` (u8, u16) and `Int` (i8, i32) with explicit
reductions modulo powers of two at exactly the points where the Rust code casts or
where pre-1.0 Rust arithmetic wraps.
-/

set_option maxRecDepth 16384

namespace Emu6502

/-- The Rust cast `b as i8` of a byte: two's-complement reinterpretation. -/
def toI8 (n : Nat) : Int :=
  if n % 256 < 128 then ((n : Int) % 256) else ((n : Int) % 256) - 256

/-- The Rust cast `i as u8` of a signed 8-bit value: low 8 bits, non-negative. -/
def toU8 (i : Int) : Nat := (i % 256).toNat

/-- Two's-complement 8-bit wraparound of an integer sum, as `i8` addition wraps. -/
def i8wrap (i : Int) : Int := (i + 128) % 256 - 128

/-- Two's-complement 32-bit wraparound, as `i32` addition wraps. -/
def i32wrap (i : Int) : Int := (i + 2147483648) % 4294967296 - 2147483648

/-- `Address(pub u16)` from src/address.rs. -/
structure Address where
  val : Nat
deriving DecidableEq

/-- `Address::to_u16`. -/
def Address.to_u16 (a : Address) : Nat := a.val

/-- `impl Add<AddressDiff> for Address`: `Address(((lhs as i32) + rhs) as u16)`.
The `AddressDiff` payload is an i32, embedded as `Int`; the i32 sum wraps and the
`as u16` cast keeps the low 16 bits. -/
def Address.add (a : Address) (d : Int) : Address :=
  ⟨(i32wrap ((a.to_u16 : Int) + d) % 65536).toNat⟩

/-- `Address::get_page_number`: `(self.to_u16() & 0xff00 >> 8) as u8`.
Rust parses `>>` tighter than `&`, so this is `to_u16 & (0xff00 >> 8)`. -/
def Address.get_page_number (a : Address) : Nat :=
  a.to_u16 &&& (0xff00 >>> 8)

/-- `Address::get_offset`: `(self.to_u16() & 0x00ff) as u8`. -/
def Address.get_offset (a : Address) : Nat :=
  a.to_u16 &&& 0x00ff

/-- Modelled from the spec: `Address::new` is declared in code missing from src/
(it is called in src/machine.rs and in the spec's testable properties). Per the
spec, it builds an address from a low byte (offset) and a high byte (page):
little-endian assembly, `new(low, high) = high * 256 + low`. -/
def Address.new (low high : Nat) : Address :=
  ⟨(low % 256) + 256 * (high % 256)⟩

/-- Modelled from the spec: memory.rs is missing from src/. Memory is a flat
byte-addressable store; every address is in bounds by construction. -/
structure Memory where
  bytes : Nat → Nat

/-- Modelled from the spec: `Memory::get_byte(Address) -> u8` reads the byte at
the given address. -/
def Memory.get_byte (m : Memory) (a : Address) : Nat := m.bytes a.to_u16

/-- `Status` from src/registers.rs: 8 flag bits packed in a u8 (bitflags). -/
structure Status where
  bits : Nat
deriving DecidableEq

def ps_negative : Status := ⟨0b10000000⟩

def ps_overflow : Status := ⟨0b01000000⟩

def ps_unused : Status := ⟨0b00100000⟩

def ps_brk : Status := ⟨0b00010000⟩

def ps_decimal_mode : Status := ⟨0b00001000⟩

def ps_disable_interrupts : Status := ⟨0b00000100⟩

def ps_zero : Status := ⟨0b00000010⟩

def ps_carry : Status := ⟨0b00000001⟩

/-- bitflags `Status::empty()`. -/
def Status.empty : Status := ⟨0⟩

/-- bitflags `contains`: `self.bits & other.bits == other.bits`. -/
def Status.contains (s f : Status) : Bool := s.bits &&& f.bits == f.bits

/-- `Status::set_with_mask`: `*self = (*self & !mask) | rhs`. The bitflags `!`
complements within the 8 defined flag bits (`all()` is 0xFF here). -/
def Status.set_with_mask (s mask rhs : Status) : Status :=
  ⟨(s.bits &&& (mask.bits ^^^ 255)) ||| rhs.bits⟩

/-- `Status::get_carry`: 1 if the carry flag is set, else 0. -/
def Status.get_carry (s : Status) : Int :=
  if s.contains ps_carry then 1 else 0

/-- `StatusArgs` from src/registers.rs. -/
structure StatusArgs where
  negative : Bool
  overflow : Bool
  unused : Bool
  brk : Bool
  decimal_mode : Bool
  disable_interrupts : Bool
  zero : Bool
  carry : Bool

/-- `StatusArgs::none`. -/
def StatusArgs.none : StatusArgs :=
  ⟨false, false, false, false, false, false, false, false⟩

/-- `Status::new`: starts from empty and ORs in each flag whose argument is true. -/
def Status.new (args : StatusArgs) : Status :=
  let o0 : Status := Status.empty
  let o1 : Status := if args.negative then ⟨o0.bits ||| ps_negative.bits⟩ else o0
  let o2 : Status := if args.overflow then ⟨o1.bits ||| ps_overflow.bits⟩ else o1
  let o3 : Status := if args.unused then ⟨o2.bits ||| ps_unused.bits⟩ else o2
  let o4 : Status := if args.brk then ⟨o3.bits ||| ps_brk.bits⟩ else o3
  let o5 : Status := if args.decimal_mode then ⟨o4.bits ||| ps_decimal_mode.bits⟩ else o4
  let o6 : Status := if args.disable_interrupts then ⟨o5.bits ||| ps_disable_interrupts.bits⟩ else o5
  let o7 : Status := if args.zero then ⟨o6.bits ||| ps_zero.bits⟩ else o6
  if args.carry then ⟨o7.bits ||| ps_carry.bits⟩ else o7

/-- `Registers` from src/registers.rs (stack pointer unwrapped to its u8 payload). -/
structure Registers where
  accumulator : Int
  index_x : Nat
  index_y : Nat
  stack_pointer : Nat
  program_counter : Address
  status : Status

/-- `Machine` from src/machine.rs. -/
structure Machine where
  registers : Registers
  memory : Memory

/-- `Value` from src/machine.rs: addressing-mode operand descriptors. -/
inductive Value where
  | Immediate : Nat → Value
  | ZeroPage : Nat → Value
  | ZeroPageX : Nat → Value
  | ZeroPageY : Nat → Value
  | Relative : Nat → Value
  | Absolute : Address → Value
  | AbsoluteX : Address → Value
  | AbsoluteY : Address → Value
  | Indirect : Address → Value
  | IndexedIndirectX : Nat → Value
  | IndirectIndexedY : Nat → Value
deriving DecidableEq

/-- `Value::get_value`: Immediate yields its byte, Absolute reads memory, every
other variant hits `fail!("Not implemented.")`, modelled as `none`. -/
def Value.get_value (v : Value) (memory : Memory) : Option Nat :=
  match v with
  | .Immediate value => some value
  | .Absolute address => some (memory.get_byte address)
  | _ => none

/-- Modelled from the spec: instruction.rs is missing from src/; src/machine.rs
imports `Instruction` with constructors `ADC` (carrying a `Value`) and `NOP`. -/
inductive Instruction where
  | ADC : Value → Instruction
  | NOP : Instruction
deriving DecidableEq

/-- `Machine::peek_pc_byte`. -/
def Machine.peek_pc_byte (m : Machine) : Nat :=
  m.memory.get_byte m.registers.program_counter

/-- `Machine::pop_pc_byte`: reads the byte at the program counter, then advances
the counter by `AddressDiff(1)`. Returns the byte and the updated machine. -/
def Machine.pop_pc_byte (m : Machine) : Nat × Machine :=
  (m.peek_pc_byte,
   { m with registers :=
      { m.registers with program_counter := m.registers.program_counter.add 1 } })

/-- `Machine::pop_pc_instruction`: decodes 0x69 as ADC-immediate, 0x6D as
ADC-absolute with a little-endian two-byte address, and everything else as NOP.
Each call to `pop_pc_byte` yields the byte read and the advanced machine. -/
def Machine.pop_pc_instruction (m : Machine) : Instruction × Machine :=
  let op_code := m.pop_pc_byte.1
  let m1 := m.pop_pc_byte.2
  if op_code = 0x69 then
    let b := m1.pop_pc_byte.1
    let m2 := m1.pop_pc_byte.2
    (Instruction.ADC (Value.Immediate b), m2)
  else if op_code = 0x6D then
    let address_low_byte := m1.pop_pc_byte.1
    let m2 := m1.pop_pc_byte.2
    let address_high_byte := m2.pop_pc_byte.1
    let m3 := m2.pop_pc_byte.2
    (Instruction.ADC (Value.Absolute (Address.new address_low_byte address_high_byte)), m3)
  else
    (Instruction.NOP, m1)

/-- `Machine::add_with_carry`. -/
def Machine.add_with_carry (m : Machine) (value : Int) : Machine :=
  let a_before : Int := m.registers.accumulator
  let c_before : Int := m.registers.status.get_carry
  let a_after : Int := i8wrap (a_before + c_before + value)
  let did_carry : Bool := decide (toU8 a_after < toU8 a_before)
  let is_zero : Bool := decide (a_after = 0)
  let is_negative : Bool := decide (a_after < 0)
  let did_overflow : Bool :=
    decide ((a_before < 0 ∧ value < 0 ∧ 0 ≤ a_after) ∨ (0 < a_before ∧ 0 < value ∧ a_after ≤ 0))
  let mask : Status := ⟨ps_carry.bits ||| ps_zero.bits ||| ps_negative.bits ||| ps_overflow.bits⟩
  let status1 : Status := m.registers.status.set_with_mask mask
    (Status.new { StatusArgs.none with
                    carry := did_carry, zero := is_zero,
                    negative := is_negative, overflow := did_overflow })
  { m with registers :=
      { m.registers with status := status1, accumulator := a_after } }

/-- `Machine::execute_instruction`: ADC-immediate and ADC-absolute invoke
add-with-carry on the operand reinterpreted as i8; NOP and every unimplemented
pair only print, leaving the state unchanged. -/
def Machine.execute_instruction (m : Machine) (instruction : Instruction) : Machine :=
  match instruction with
  | .ADC (.Immediate value) => m.add_with_carry (toI8 value)
  | .ADC (.Absolute address) => m.add_with_carry (toI8 (m.memory.get_byte address))
  | .NOP => m
  | _ => m

/-! ## Helper lemmas -/

/-- Containment of a single-bit flag is exactly that bit of the status byte. -/
theorem Status.contains_single (x k : Nat) : Status.contains ⟨x⟩ ⟨2 ^ k⟩ = x.testBit k := by
  unfold Status.contains
  rw [Nat.and_two_pow]
  cases h : x.testBit k
  · simpa using (Nat.two_pow_pos k).ne
  · simp

/-- Bit `i` of the byte 255 is set exactly for the low 8 positions. -/
theorem testBit_255 (i : Nat) : (255 : Nat).testBit i = decide (i < 8) := by
  have h : (255 : Nat) = 2 ^ 8 - 1 := rfl
  rw [h, Nat.testBit_two_pow_sub_one]

/-- A byte has no bits at position 8 or above. -/
theorem testBit_of_byte {x : Nat} (hx : x < 256) {k : Nat} (hk : 8 ≤ k) :
    x.testBit k = false := by
  refine Nat.testBit_lt_two_pow (Nat.lt_of_lt_of_le hx ?_)
  calc (256 : Nat) = 2 ^ 8 := rfl
    _ ≤ 2 ^ k := Nat.pow_le_pow_right (by norm_num) hk

/-- Bits of the status produced by `Status.new` for the four ADC flags. -/
theorem new_adc_testBit (nb ob zb cb : Bool) :
    ((Status.new { StatusArgs.none with
        carry := cb, zero := zb, negative := nb, overflow := ob }).bits.testBit 0 = cb)
  ∧ ((Status.new { StatusArgs.none with
        carry := cb, zero := zb, negative := nb, overflow := ob }).bits.testBit 1 = zb)
  ∧ ((Status.new { StatusArgs.none with
        carry := cb, zero := zb, negative := nb, overflow := ob }).bits.testBit 6 = ob)
  ∧ ((Status.new { StatusArgs.none with
        carry := cb, zero := zb, negative := nb, overflow := ob }).bits.testBit 7 = nb) := by
  cases nb <;> cases ob <;> cases zb <;> cases cb <;>
    simp only [Status.new, StatusArgs.none, Status.empty] <;> decide

/-- The four ADC flags of a status written through `set_with_mask` with the ADC
mask are exactly the four booleans handed to `Status.new`; the rest of the mask
complement (bits 2–5) cannot leak into them. -/
theorem adc_set_flags (s : Status) (nb ob zb cb : Bool) :
    ((s.set_with_mask ⟨ps_carry.bits ||| ps_zero.bits ||| ps_negative.bits ||| ps_overflow.bits⟩
        (Status.new { StatusArgs.none with
          carry := cb, zero := zb, negative := nb, overflow := ob })).contains ps_carry = cb)
  ∧ ((s.set_with_mask ⟨ps_carry.bits ||| ps_zero.bits ||| ps_negative.bits ||| ps_overflow.bits⟩
        (Status.new { StatusArgs.none with
          carry := cb, zero := zb, negative := nb, overflow := ob })).contains ps_zero = zb)
  ∧ ((s.set_with_mask ⟨ps_carry.bits ||| ps_zero.bits ||| ps_negative.bits ||| ps_overflow.bits⟩
        (Status.new { StatusArgs.none with
          carry := cb, zero := zb, negative := nb, overflow := ob })).contains ps_negative = nb)
  ∧ ((s.set_with_mask ⟨ps_carry.bits ||| ps_zero.bits ||| ps_negative.bits ||| ps_overflow.bits⟩
        (Status.new { StatusArgs.none with
          carry := cb, zero := zb, negative := nb, overflow := ob })).contains ps_overflow = ob) := by
  obtain ⟨h0, h1, h6, h7⟩ := new_adc_testBit nb ob zb cb
  have hand : ∀ k : Nat, (60 : Nat).testBit k = false →
      ((s.bits &&& 60) |||
        (Status.new { StatusArgs.none with
          carry := cb, zero := zb, negative := nb, overflow := ob }).bits).testBit k =
      (Status.new { StatusArgs.none with
          carry := cb, zero := zb, negative := nb, overflow := ob }).bits.testBit k := by
    intro k hk
    rw [Nat.testBit_or, Nat.testBit_and, hk]
    simp
  refine ⟨?_, ?_, ?_, ?_⟩
  · show Status.contains ⟨(s.bits &&& 60) ||| _⟩ ⟨2 ^ 0⟩ = cb
    rw [Status.contains_single, hand 0 rfl, h0]
  · show Status.contains ⟨(s.bits &&& 60) ||| _⟩ ⟨2 ^ 1⟩ = zb
    rw [Status.contains_single, hand 1 rfl, h1]
  · show Status.contains ⟨(s.bits &&& 60) ||| _⟩ ⟨2 ^ 7⟩ = nb
    rw [Status.contains_single, hand 7 rfl, h7]
  · show Status.contains ⟨(s.bits &&& 60) ||| _⟩ ⟨2 ^ 6⟩ = ob
    rw [Status.contains_single, hand 6 rfl, h6]

/-- Advancing an address by one wraps modulo 65536. -/
theorem address_add_one (a : Address) : a.add 1 = ⟨(a.val + 1) % 65536⟩ := by
  have h2 : (i32wrap ((a.to_u16 : Int) + 1) % 65536).toNat = (a.val + 1) % 65536 := by
    unfold i32wrap Address.to_u16
    omega
  show (⟨(i32wrap ((a.to_u16 : Int) + 1) % 65536).toNat⟩ : Address) = _
  rw [h2]

/-- The accumulator written by `add_with_carry` is the wrapped 8-bit sum. -/
theorem awc_acc (m : Machine) (v : Int) :
    (m.add_with_carry v).registers.accumulator
      = i8wrap (m.registers.accumulator + m.registers.status.get_carry + v) := rfl

/-- The status written by `add_with_carry`, spelled out. -/
theorem awc_status (m : Machine) (v : Int) :
    (m.add_with_carry v).registers.status
      = m.registers.status.set_with_mask
          ⟨ps_carry.bits ||| ps_zero.bits ||| ps_negative.bits ||| ps_overflow.bits⟩
          (Status.new { StatusArgs.none with
            carry := decide
              (toU8 (i8wrap (m.registers.accumulator + m.registers.status.get_carry + v))
                < toU8 m.registers.accumulator),
            zero := decide
              (i8wrap (m.registers.accumulator + m.registers.status.get_carry + v) = 0),
            negative := decide
              (i8wrap (m.registers.accumulator + m.registers.status.get_carry + v) < 0),
            overflow := decide
              ((m.registers.accumulator < 0 ∧ v < 0 ∧
                  0 ≤ i8wrap (m.registers.accumulator + m.registers.status.get_carry + v))
                ∨ (0 < m.registers.accumulator ∧ 0 < v ∧
                  i8wrap (m.registers.accumulator + m.registers.status.get_carry + v) ≤ 0)) }) :=
  rfl

/-! ## Claim theorems -/

/-- Claim C1, counterexample: with `s = empty`, `m = empty` (so bit 0 lies
outside the mask) and `n = ps_carry` (a bit set outside the mask), the result's
bit 0 is 1 while `s`'s bit 0 is 0 — the claim's "bits outside m are exactly the
bits of s, for all n" fails at this input. -/
theorem c1_counterexample :
    (Status.set_with_mask ⟨0⟩ ⟨0⟩ ⟨1⟩).bits.testBit 0 = true
  ∧ (Status.bits ⟨0⟩).testBit 0 = false := by decide

/-- Claim C1, amended: `set_with_mask(m, n)` yields a status whose bits inside
`m` equal the corresponding bits of `n`, and whose bits outside `m` are the OR
of `s`'s and `n`'s bits there — equal to `s`'s bits exactly when `n` has no bit
set outside `m`; a stray bit of `n` outside `m` leaks into the result. -/
theorem c1_set_with_mask_amended (s m n : Status)
    (hs : s.bits < 256) (hm : m.bits < 256) (hn : n.bits < 256) (k : Nat) :
    (m.bits.testBit k = true →
      (s.set_with_mask m n).bits.testBit k = n.bits.testBit k)
  ∧ (m.bits.testBit k = false →
      (s.set_with_mask m n).bits.testBit k = (s.bits.testBit k || n.bits.testBit k)) := by
  have hgoal : (s.set_with_mask m n).bits.testBit k =
      ((s.bits.testBit k && (m.bits.testBit k).xor ((255 : Nat).testBit k))
        || n.bits.testBit k) := by
    show ((s.bits &&& (m.bits ^^^ 255)) ||| n.bits).testBit k = _
    rw [Nat.testBit_or, Nat.testBit_and, Nat.testBit_xor]
  by_cases hk : k < 8
  · rw [testBit_255, decide_eq_true hk] at hgoal
    constructor
    · intro hmk
      rw [hgoal, hmk]
      simp
    · intro hmk
      rw [hgoal, hmk]
      simp
  · have h8 : 8 ≤ k := Nat.le_of_not_lt hk
    rw [testBit_255, decide_eq_false (by omega)] at hgoal
    constructor
    · intro hmk
      rw [testBit_of_byte hm h8] at hmk
      exact absurd hmk (by simp)
    · intro hmk
      rw [hgoal, hmk, testBit_of_byte hs h8, testBit_of_byte hn h8]
      simp

/-- Claim C1, witness for the amended theorem at concrete inputs. -/
theorem c1_amended_witness :
    ((165 : Nat) < 256 ∧ (3 : Nat) < 256 ∧ (1 : Nat) < 256)
  ∧ (((3 : Nat).testBit 0 = true →
      (Status.set_with_mask ⟨165⟩ ⟨3⟩ ⟨1⟩).bits.testBit 0 = (1 : Nat).testBit 0)
    ∧ ((3 : Nat).testBit 0 = false →
      (Status.set_with_mask ⟨165⟩ ⟨3⟩ ⟨1⟩).bits.testBit 0 =
        ((165 : Nat).testBit 0 || (1 : Nat).testBit 0))) :=
  ⟨by decide,
   c1_set_with_mask_amended ⟨165⟩ ⟨3⟩ ⟨1⟩ (by decide) (by decide) (by decide) 0⟩

/-- Claim C2: the code computes `to_u16 & 0xff00 >> 8`, which Rust parses as
`to_u16 & (0xff00 >> 8) = to_u16 & 0xff` — the LOW byte, not the high byte the
spec demands; reconstruction through `Address::new` then fails for any address
with a nonzero high byte. Evaluated here at the failing input 0x1234. -/
theorem c2_page_number_code_bug :
    Address.get_page_number ⟨0x1234⟩ = 0x34
  ∧ Address.new (Address.get_offset ⟨0x1234⟩) (Address.get_page_number ⟨0x1234⟩) = ⟨0x3434⟩
  ∧ Address.new (Address.get_offset ⟨0x1234⟩) (Address.get_page_number ⟨0x1234⟩) ≠ ⟨0x1234⟩ := by
  decide

/-- Claim C5: `Address + AddressDiff` produces the widened sum reduced modulo
65536 and taken as non-negative, for every address and every delta; the
operation is a total function (no error condition). -/
theorem c5_address_add_wraps (a : Address) (d : Int) :
    ((a.add d).to_u16 : Int) = ((a.to_u16 : Int) + d) % 65536
  ∧ 0 ≤ ((a.to_u16 : Int) + d) % 65536
  ∧ ((a.to_u16 : Int) + d) % 65536 < 65536 := by
  have h : (a.add d).to_u16 = (i32wrap ((a.to_u16 : Int) + d) % 65536).toNat := rfl
  rw [h]
  unfold i32wrap
  refine ⟨?_, ?_, ?_⟩ <;> omega

/-- Claim C7: `get_value` returns the embedded byte for Immediate (independent
of memory), reads memory at the embedded address for Absolute, and fails
(returns no byte) on every other addressing-mode variant. -/
theorem c7_get_value (memory : Memory) :
    (∀ b, (Value.Immediate b).get_value memory = some b)
  ∧ (∀ b (memory2 : Memory),
      (Value.Immediate b).get_value memory = (Value.Immediate b).get_value memory2)
  ∧ (∀ a, (Value.Absolute a).get_value memory = some (memory.get_byte a))
  ∧ (∀ v : Value, (∀ b, v ≠ Value.Immediate b) → (∀ a, v ≠ Value.Absolute a) →
      v.get_value memory = none) := by
  refine ⟨fun b => rfl, fun b memory2 => rfl, fun a => rfl, fun v h1 h2 => ?_⟩
  cases v <;> first
    | rfl
    | exact absurd rfl (h1 _)
    | exact absurd rfl (h2 _)

/-- Claim C7, witness at a concrete memory and concrete variants. -/
theorem c7_get_value_witness :
    (Value.Immediate 5).get_value ⟨fun _ => 7⟩ = some 5
  ∧ (Value.ZeroPage 0).get_value ⟨fun _ => 7⟩ = none :=
  ⟨(c7_get_value ⟨fun _ => 7⟩).1 5,
   (c7_get_value ⟨fun _ => 7⟩).2.2.2 (Value.ZeroPage 0)
     (fun _ h => Value.noConfusion h) (fun _ h => Value.noConfusion h)⟩

/-- Claim C10: `execute_instruction` never changes the program counter, index
registers, stack pointer, or memory, for any instruction: only the accumulator
and the status flags may change. -/
theorem c10_execute_frame (m : Machine) (instruction : Instruction) :
    (m.execute_instruction instruction).registers.program_counter
      = m.registers.program_counter
  ∧ (m.execute_instruction instruction).registers.index_x = m.registers.index_x
  ∧ (m.execute_instruction instruction).registers.index_y = m.registers.index_y
  ∧ (m.execute_instruction instruction).registers.stack_pointer
      = m.registers.stack_pointer
  ∧ (m.execute_instruction instruction).memory = m.memory := by
  cases instruction with
  | NOP => exact ⟨rfl, rfl, rfl, rfl, rfl⟩
  | ADC v => cases v <;> exact ⟨rfl, rfl, rfl, rfl, rfl⟩

/-- The byte returned by `pop_pc_byte` is the byte at the program counter. -/
theorem pop_pc_byte_fst (m : Machine) :
    m.pop_pc_byte.1 = m.memory.get_byte m.registers.program_counter := rfl

/-- Popping a byte advances the program counter by one. -/
theorem pop_pc_byte_snd_pc (m : Machine) :
    m.pop_pc_byte.2.registers.program_counter = m.registers.program_counter.add 1 := rfl

/-- Unfolding equation for `pop_pc_byte`, by computation. -/
theorem pop_pc_byte_pair (m : Machine) :
    m.pop_pc_byte = (m.memory.get_byte m.registers.program_counter,
      { m with registers := { m.registers with
          program_counter := m.registers.program_counter.add 1 } }) := rfl

/-- Unfolding equation for `pop_pc_instruction`, by computation. -/
theorem pop_pc_instruction_eq (m : Machine) :
    m.pop_pc_instruction =
      if m.pop_pc_byte.1 = 0x69 then
        (Instruction.ADC (Value.Immediate m.pop_pc_byte.2.pop_pc_byte.1),
         m.pop_pc_byte.2.pop_pc_byte.2)
      else if m.pop_pc_byte.1 = 0x6D then
        (Instruction.ADC (Value.Absolute (Address.new m.pop_pc_byte.2.pop_pc_byte.1
            m.pop_pc_byte.2.pop_pc_byte.2.pop_pc_byte.1)),
         m.pop_pc_byte.2.pop_pc_byte.2.pop_pc_byte.2)
      else (Instruction.NOP, m.pop_pc_byte.2) := rfl

/-- Claim C6: opcode 0x69 decodes to ADC with an Immediate operand equal to the
byte after the opcode and advances the program counter by 2; opcode 0x6D decodes
to ADC with an Absolute address assembled little-endian from the two following
bytes (first popped byte low, second high) and advances the program counter
by 3 (both advances modulo 65536). -/
theorem c6_decode_adc (m : Machine) :
    (m.memory.get_byte m.registers.program_counter = 0x69 →
      (m.pop_pc_instruction).1
        = Instruction.ADC (Value.Immediate
            (m.memory.get_byte ⟨(m.registers.program_counter.val + 1) % 65536⟩))
      ∧ (m.pop_pc_instruction).2.registers.program_counter
        = ⟨(m.registers.program_counter.val + 2) % 65536⟩)
  ∧ (m.memory.get_byte m.registers.program_counter = 0x6D →
      (m.pop_pc_instruction).1
        = Instruction.ADC (Value.Absolute (Address.new
            (m.memory.get_byte ⟨(m.registers.program_counter.val + 1) % 65536⟩)
            (m.memory.get_byte ⟨(m.registers.program_counter.val + 2) % 65536⟩)))
      ∧ (m.pop_pc_instruction).2.registers.program_counter
        = ⟨(m.registers.program_counter.val + 3) % 65536⟩) := by
  have hpc2 : ∀ x : Nat, ((⟨x % 65536⟩ : Address).add 1) = ⟨(x + 1) % 65536⟩ := by
    intro x
    rw [address_add_one]
    simp only [Address.mk.injEq]
    omega
  have hmod : ∀ x k : Nat, (x % 65536 + k) % 65536 = (x + k) % 65536 := by
    intro x k
    omega
  constructor
  · intro h69
    have h69p : m.pop_pc_byte.1 = 0x69 := by rw [pop_pc_byte_fst]; exact h69
    rw [pop_pc_instruction_eq, if_pos h69p]
    constructor
    · simp only [pop_pc_byte_pair, Memory.get_byte, Address.to_u16, address_add_one]
    · simp only [pop_pc_byte_pair, address_add_one, Address.mk.injEq, hmod]
  · intro h6D
    have h6Dp : m.pop_pc_byte.1 = 0x6D := by rw [pop_pc_byte_fst]; exact h6D
    have hne : ¬ m.pop_pc_byte.1 = 0x69 := by rw [h6Dp]; decide
    rw [pop_pc_instruction_eq, if_neg hne, if_pos h6Dp]
    constructor
    · simp only [pop_pc_byte_pair, Memory.get_byte, Address.to_u16, address_add_one,
        Address.mk.injEq, hmod]
    · simp only [pop_pc_byte_pair, address_add_one, Address.mk.injEq, hmod]

/-- Claim C6, witness: decoding the byte streams [0x69, 0x05] and
[0x6D, 0x00, 0x10] from program counter 0 yields ADC-immediate 5 with the
program counter at 2, and ADC-absolute 0x1000 with the program counter at 3. -/
theorem c6_decode_adc_witness :
    ((⟨⟨0, 0, 0, 0, ⟨0⟩, ⟨36⟩⟩,
        ⟨fun n => if n = 0 then 0x69 else if n = 1 then 5 else 0⟩⟩ : Machine).memory.get_byte
      (⟨⟨0, 0, 0, 0, ⟨0⟩, ⟨36⟩⟩,
        ⟨fun n => if n = 0 then 0x69 else if n = 1 then 5 else 0⟩⟩ : Machine).registers.program_counter
      = 0x69)
  ∧ ((⟨⟨0, 0, 0, 0, ⟨0⟩, ⟨36⟩⟩,
        ⟨fun n => if n = 0 then 0x69 else if n = 1 then 5 else 0⟩⟩ : Machine).pop_pc_instruction.1
      = Instruction.ADC (Value.Immediate 5)
      ∧ (⟨⟨0, 0, 0, 0, ⟨0⟩, ⟨36⟩⟩,
        ⟨fun n => if n = 0 then 0x69 else if n = 1 then 5 else 0⟩⟩ : Machine).pop_pc_instruction.2.registers.program_counter
      = ⟨2⟩)
  ∧ ((⟨⟨0, 0, 0, 0, ⟨0⟩, ⟨36⟩⟩,
        ⟨fun n => if n = 0 then 0x6D else if n = 1 then 0 else if n = 2 then 0x10 else 0⟩⟩ : Machine).memory.get_byte
      (⟨⟨0, 0, 0, 0, ⟨0⟩, ⟨36⟩⟩,
        ⟨fun n => if n = 0 then 0x6D else if n = 1 then 0 else if n = 2 then 0x10 else 0⟩⟩ : Machine).registers.program_counter
      = 0x6D)
  ∧ ((⟨⟨0, 0, 0, 0, ⟨0⟩, ⟨36⟩⟩,
        ⟨fun n => if n = 0 then 0x6D else if n = 1 then 0 else if n = 2 then 0x10 else 0⟩⟩ : Machine).pop_pc_instruction.1
      = Instruction.ADC (Value.Absolute ⟨0x1000⟩)
      ∧ (⟨⟨0, 0, 0, 0, ⟨0⟩, ⟨36⟩⟩,
        ⟨fun n => if n = 0 then 0x6D else if n = 1 then 0 else if n = 2 then 0x10 else 0⟩⟩ : Machine).pop_pc_instruction.2.registers.program_counter
      = ⟨3⟩) :=
  ⟨by decide,
   (c6_decode_adc ⟨⟨0, 0, 0, 0, ⟨0⟩, ⟨36⟩⟩,
      ⟨fun n => if n = 0 then 0x69 else if n = 1 then 5 else 0⟩⟩).1 (by decide),
   by decide,
   (c6_decode_adc ⟨⟨0, 0, 0, 0, ⟨0⟩, ⟨36⟩⟩,
      ⟨fun n => if n = 0 then 0x6D else if n = 1 then 0 else if n = 2 then 0x10 else 0⟩⟩).2 (by decide)⟩

/-- Claim C8: any opcode byte other than 0x69 and 0x6D decodes to NOP and
advances the program counter by exactly one address unit, wrapping modulo
65536 at the top of the address space. -/
theorem c8_decode_nop (m : Machine)
    (h1 : m.memory.get_byte m.registers.program_counter ≠ 0x69)
    (h2 : m.memory.get_byte m.registers.program_counter ≠ 0x6D) :
    (m.pop_pc_instruction).1 = Instruction.NOP
  ∧ (m.pop_pc_instruction).2.registers.program_counter
      = ⟨(m.registers.program_counter.val + 1) % 65536⟩ := by
  have h1p : ¬ m.pop_pc_byte.1 = 0x69 := by rw [pop_pc_byte_fst]; exact h1
  have h2p : ¬ m.pop_pc_byte.1 = 0x6D := by rw [pop_pc_byte_fst]; exact h2
  rw [pop_pc_instruction_eq, if_neg h1p, if_neg h2p]
  exact ⟨rfl, by rw [pop_pc_byte_snd_pc, address_add_one]⟩

/-- Claim C8, witness: decoding opcode 0x00 at program counter 0xFFFF yields
NOP and wraps the program counter to 0x0000. -/
theorem c8_decode_nop_witness :
    ((⟨⟨0, 0, 0, 0, ⟨0xFFFF⟩, ⟨36⟩⟩, ⟨fun _ => 0⟩⟩ : Machine).memory.get_byte
        (⟨⟨0, 0, 0, 0, ⟨0xFFFF⟩, ⟨36⟩⟩, ⟨fun _ => 0⟩⟩ : Machine).registers.program_counter ≠ 0x69)
  ∧ ((⟨⟨0, 0, 0, 0, ⟨0xFFFF⟩, ⟨36⟩⟩, ⟨fun _ => 0⟩⟩ : Machine).memory.get_byte
        (⟨⟨0, 0, 0, 0, ⟨0xFFFF⟩, ⟨36⟩⟩, ⟨fun _ => 0⟩⟩ : Machine).registers.program_counter ≠ 0x6D)
  ∧ (⟨⟨0, 0, 0, 0, ⟨0xFFFF⟩, ⟨36⟩⟩, ⟨fun _ => 0⟩⟩ : Machine).pop_pc_instruction.1
      = Instruction.NOP
  ∧ (⟨⟨0, 0, 0, 0, ⟨0xFFFF⟩, ⟨36⟩⟩, ⟨fun _ => 0⟩⟩ : Machine).pop_pc_instruction.2.registers.program_counter
      = ⟨0⟩ :=
  ⟨by decide, by decide,
   (c8_decode_nop ⟨⟨0, 0, 0, 0, ⟨0xFFFF⟩, ⟨36⟩⟩, ⟨fun _ => 0⟩⟩ (by decide) (by decide)).1,
   (c8_decode_nop ⟨⟨0, 0, 0, 0, ⟨0xFFFF⟩, ⟨36⟩⟩, ⟨fun _ => 0⟩⟩ (by decide) (by decide)).2⟩

/-- Claim C3: `add_with_carry v` sets the accumulator to the 8-bit
two's-complement wraparound of `a0 + carry_in + v`, sets the carry flag iff the
unsigned-byte reinterpretation of the result is below that of the old
accumulator, the zero flag iff the result is 0, and the negative flag iff the
result is negative. -/
theorem c3_add_with_carry (m : Machine) (v : Int) (hv1 : -128 ≤ v) (hv2 : v ≤ 127) :
    ((m.add_with_carry v).registers.accumulator
        - (m.registers.accumulator + m.registers.status.get_carry + v)) % 256 = 0
  ∧ -128 ≤ (m.add_with_carry v).registers.accumulator
  ∧ (m.add_with_carry v).registers.accumulator < 128
  ∧ ((m.add_with_carry v).registers.status.contains ps_carry = true ↔
      toU8 (m.add_with_carry v).registers.accumulator < toU8 m.registers.accumulator)
  ∧ ((m.add_with_carry v).registers.status.contains ps_zero = true ↔
      (m.add_with_carry v).registers.accumulator = 0)
  ∧ ((m.add_with_carry v).registers.status.contains ps_negative = true ↔
      (m.add_with_carry v).registers.accumulator < 0) := by
  rw [awc_acc, awc_status]
  obtain ⟨f1, f2, f3, _⟩ := adc_set_flags m.registers.status
    (decide (i8wrap (m.registers.accumulator + m.registers.status.get_carry + v) < 0))
    (decide ((m.registers.accumulator < 0 ∧ v < 0 ∧
        0 ≤ i8wrap (m.registers.accumulator + m.registers.status.get_carry + v))
      ∨ (0 < m.registers.accumulator ∧ 0 < v ∧
        i8wrap (m.registers.accumulator + m.registers.status.get_carry + v) ≤ 0)))
    (decide (i8wrap (m.registers.accumulator + m.registers.status.get_carry + v) = 0))
    (decide (toU8 (i8wrap (m.registers.accumulator + m.registers.status.get_carry + v))
      < toU8 m.registers.accumulator))
  refine ⟨?_, ?_, ?_, ?_, ?_, ?_⟩
  · unfold i8wrap
    omega
  · unfold i8wrap
    omega
  · unfold i8wrap
    omega
  · rw [f1, decide_eq_true_eq]
  · rw [f2, decide_eq_true_eq]
  · rw [f3, decide_eq_true_eq]

/-- Claim C3, witness at a fresh machine (status 0x24) with operand 1. -/
theorem c3_add_with_carry_witness :
    ((-128 : Int) ≤ 1 ∧ (1 : Int) ≤ 127)
  ∧ (((⟨⟨0, 0, 0, 0, ⟨0⟩, ⟨36⟩⟩, ⟨fun _ => 0⟩⟩ : Machine).add_with_carry 1).registers.accumulator
        - ((⟨⟨0, 0, 0, 0, ⟨0⟩, ⟨36⟩⟩, ⟨fun _ => 0⟩⟩ : Machine).registers.accumulator
            + (⟨⟨0, 0, 0, 0, ⟨0⟩, ⟨36⟩⟩, ⟨fun _ => 0⟩⟩ : Machine).registers.status.get_carry + 1)) % 256 = 0
  ∧ -128 ≤ ((⟨⟨0, 0, 0, 0, ⟨0⟩, ⟨36⟩⟩, ⟨fun _ => 0⟩⟩ : Machine).add_with_carry 1).registers.accumulator
  ∧ ((⟨⟨0, 0, 0, 0, ⟨0⟩, ⟨36⟩⟩, ⟨fun _ => 0⟩⟩ : Machine).add_with_carry 1).registers.accumulator < 128
  ∧ (((⟨⟨0, 0, 0, 0, ⟨0⟩, ⟨36⟩⟩, ⟨fun _ => 0⟩⟩ : Machine).add_with_carry 1).registers.status.contains ps_carry = true ↔
      toU8 ((⟨⟨0, 0, 0, 0, ⟨0⟩, ⟨36⟩⟩, ⟨fun _ => 0⟩⟩ : Machine).add_with_carry 1).registers.accumulator
        < toU8 (⟨⟨0, 0, 0, 0, ⟨0⟩, ⟨36⟩⟩, ⟨fun _ => 0⟩⟩ : Machine).registers.accumulator)
  ∧ (((⟨⟨0, 0, 0, 0, ⟨0⟩, ⟨36⟩⟩, ⟨fun _ => 0⟩⟩ : Machine).add_with_carry 1).registers.status.contains ps_zero = true ↔
      ((⟨⟨0, 0, 0, 0, ⟨0⟩, ⟨36⟩⟩, ⟨fun _ => 0⟩⟩ : Machine).add_with_carry 1).registers.accumulator = 0)
  ∧ (((⟨⟨0, 0, 0, 0, ⟨0⟩, ⟨36⟩⟩, ⟨fun _ => 0⟩⟩ : Machine).add_with_carry 1).registers.status.contains ps_negative = true ↔
      ((⟨⟨0, 0, 0, 0, ⟨0⟩, ⟨36⟩⟩, ⟨fun _ => 0⟩⟩ : Machine).add_with_carry 1).registers.accumulator < 0) :=
  ⟨⟨by decide, by decide⟩,
   c3_add_with_carry ⟨⟨0, 0, 0, 0, ⟨0⟩, ⟨36⟩⟩, ⟨fun _ => 0⟩⟩ 1 (by decide) (by decide)⟩

/-- Claim C4: the overflow flag is set iff the old accumulator and the operand
are both positive with a negative result, or both negative with a non-negative
result; in particular accumulator 127 with carry clear plus operand 1 gives
accumulator -128 with carry and zero clear, negative and overflow set. -/
theorem c4_overflow :
    (∀ (m : Machine) (v : Int),
      -128 ≤ m.registers.accumulator → m.registers.accumulator ≤ 127 →
      -128 ≤ v → v ≤ 127 →
      ((m.add_with_carry v).registers.status.contains ps_overflow = true ↔
        (0 < m.registers.accumulator ∧ 0 < v ∧
            (m.add_with_carry v).registers.accumulator < 0)
        ∨ (m.registers.accumulator < 0 ∧ v < 0 ∧
            0 ≤ (m.add_with_carry v).registers.accumulator)))
  ∧ ((⟨⟨127, 0, 0, 0, ⟨0⟩, ⟨0⟩⟩, ⟨fun _ => 0⟩⟩ : Machine).add_with_carry 1).registers.accumulator = -128
  ∧ ((⟨⟨127, 0, 0, 0, ⟨0⟩, ⟨0⟩⟩, ⟨fun _ => 0⟩⟩ : Machine).add_with_carry 1).registers.status.contains ps_carry = false
  ∧ ((⟨⟨127, 0, 0, 0, ⟨0⟩, ⟨0⟩⟩, ⟨fun _ => 0⟩⟩ : Machine).add_with_carry 1).registers.status.contains ps_zero = false
  ∧ ((⟨⟨127, 0, 0, 0, ⟨0⟩, ⟨0⟩⟩, ⟨fun _ => 0⟩⟩ : Machine).add_with_carry 1).registers.status.contains ps_negative = true
  ∧ ((⟨⟨127, 0, 0, 0, ⟨0⟩, ⟨0⟩⟩, ⟨fun _ => 0⟩⟩ : Machine).add_with_carry 1).registers.status.contains ps_overflow = true := by
  constructor
  · intro m v ha1 ha2 hv1 hv2
    rw [awc_acc, awc_status]
    obtain ⟨_, _, _, f4⟩ := adc_set_flags m.registers.status
      (decide (i8wrap (m.registers.accumulator + m.registers.status.get_carry + v) < 0))
      (decide ((m.registers.accumulator < 0 ∧ v < 0 ∧
          0 ≤ i8wrap (m.registers.accumulator + m.registers.status.get_carry + v))
        ∨ (0 < m.registers.accumulator ∧ 0 < v ∧
          i8wrap (m.registers.accumulator + m.registers.status.get_carry + v) ≤ 0)))
      (decide (i8wrap (m.registers.accumulator + m.registers.status.get_carry + v) = 0))
      (decide (toU8 (i8wrap (m.registers.accumulator + m.registers.status.get_carry + v))
        < toU8 m.registers.accumulator))
    rw [f4, decide_eq_true_eq]
    have hc : m.registers.status.get_carry = 0 ∨ m.registers.status.get_carry = 1 := by
      unfold Status.get_carry
      split
      · exact Or.inr rfl
      · exact Or.inl rfl
    unfold i8wrap
    rcases hc with hc | hc <;> rw [hc] <;> omega
  · exact ⟨by decide, by decide, by decide, by decide, by decide⟩

/-- Claim C4, witness: the universally quantified overflow characterisation
applied at accumulator 127, carry clear, operand 1. -/
theorem c4_overflow_witness :
    ((-128 : Int) ≤ 127 ∧ (127 : Int) ≤ 127 ∧ (-128 : Int) ≤ 1 ∧ (1 : Int) ≤ 127)
  ∧ (((⟨⟨127, 0, 0, 0, ⟨0⟩, ⟨0⟩⟩, ⟨fun _ => 0⟩⟩ : Machine).add_with_carry 1).registers.status.contains ps_overflow = true ↔
      (0 < (⟨⟨127, 0, 0, 0, ⟨0⟩, ⟨0⟩⟩, ⟨fun _ => 0⟩⟩ : Machine).registers.accumulator ∧ (0 : Int) < 1 ∧
          ((⟨⟨127, 0, 0, 0, ⟨0⟩, ⟨0⟩⟩, ⟨fun _ => 0⟩⟩ : Machine).add_with_carry 1).registers.accumulator < 0)
      ∨ ((⟨⟨127, 0, 0, 0, ⟨0⟩, ⟨0⟩⟩, ⟨fun _ => 0⟩⟩ : Machine).registers.accumulator < 0 ∧ (1 : Int) < 0 ∧
          0 ≤ ((⟨⟨127, 0, 0, 0, ⟨0⟩, ⟨0⟩⟩, ⟨fun _ => 0⟩⟩ : Machine).add_with_carry 1).registers.accumulator)) :=
  ⟨⟨by decide, by decide, by decide, by decide⟩,
   c4_overflow.1 ⟨⟨127, 0, 0, 0, ⟨0⟩, ⟨0⟩⟩, ⟨fun _ => 0⟩⟩ 1
     (by decide) (by decide) (by decide) (by decide)⟩

/-- Claim C9: two machines that agree on the accumulator and on every status
bit except the decimal-mode bit (bit 3) produce, under `add_with_carry v`, the
same accumulator and the same carry, zero, negative, and overflow flags:
add-with-carry ignores the decimal-mode flag. -/
theorem c9_decimal_mode_independent (m1 m2 : Machine) (v : Int)
    (hacc : m1.registers.accumulator = m2.registers.accumulator)
    (hst : ∀ k, k < 8 → k ≠ 3 →
      m1.registers.status.bits.testBit k = m2.registers.status.bits.testBit k) :
    (m1.add_with_carry v).registers.accumulator
      = (m2.add_with_carry v).registers.accumulator
  ∧ (m1.add_with_carry v).registers.status.contains ps_carry
      = (m2.add_with_carry v).registers.status.contains ps_carry
  ∧ (m1.add_with_carry v).registers.status.contains ps_zero
      = (m2.add_with_carry v).registers.status.contains ps_zero
  ∧ (m1.add_with_carry v).registers.status.contains ps_negative
      = (m2.add_with_carry v).registers.status.contains ps_negative
  ∧ (m1.add_with_carry v).registers.status.contains ps_overflow
      = (m2.add_with_carry v).registers.status.contains ps_overflow := by
  have e1 : m1.registers.status.contains ps_carry = m1.registers.status.bits.testBit 0 :=
    Status.contains_single m1.registers.status.bits 0
  have e2 : m2.registers.status.contains ps_carry = m2.registers.status.bits.testBit 0 :=
    Status.contains_single m2.registers.status.bits 0
  have hcb : m1.registers.status.contains ps_carry = m2.registers.status.contains ps_carry := by
    rw [e1, e2, hst 0 (by decide) (by decide)]
  have hc : m1.registers.status.get_carry = m2.registers.status.get_carry := by
    unfold Status.get_carry
    rw [hcb]
  refine ⟨?_, ?_, ?_, ?_, ?_⟩
  · rw [awc_acc, awc_acc, hacc, hc]
  · rw [awc_status, awc_status, hacc, hc,
        (adc_set_flags m1.registers.status _ _ _ _).1,
        (adc_set_flags m2.registers.status _ _ _ _).1]
  · rw [awc_status, awc_status, hacc, hc,
        (adc_set_flags m1.registers.status _ _ _ _).2.1,
        (adc_set_flags m2.registers.status _ _ _ _).2.1]
  · rw [awc_status, awc_status, hacc, hc,
        (adc_set_flags m1.registers.status _ _ _ _).2.2.1,
        (adc_set_flags m2.registers.status _ _ _ _).2.2.1]
  · rw [awc_status, awc_status, hacc, hc,
        (adc_set_flags m1.registers.status _ _ _ _).2.2.2,
        (adc_set_flags m2.registers.status _ _ _ _).2.2.2]

/-- Claim C9, witness: status bytes 0x24 and 0x2C differ exactly in the
decimal-mode bit; add-with-carry of 3 from accumulator 7 agrees on the
accumulator and all four updated flags. -/
theorem c9_decimal_mode_independent_witness :
    ((⟨⟨7, 0, 0, 0, ⟨0⟩, ⟨36⟩⟩, ⟨fun _ => 0⟩⟩ : Machine).registers.accumulator
        = (⟨⟨7, 0, 0, 0, ⟨0⟩, ⟨44⟩⟩, ⟨fun _ => 0⟩⟩ : Machine).registers.accumulator)
  ∧ (∀ k, k < 8 → k ≠ 3 →
      (⟨⟨7, 0, 0, 0, ⟨0⟩, ⟨36⟩⟩, ⟨fun _ => 0⟩⟩ : Machine).registers.status.bits.testBit k
        = (⟨⟨7, 0, 0, 0, ⟨0⟩, ⟨44⟩⟩, ⟨fun _ => 0⟩⟩ : Machine).registers.status.bits.testBit k)
  ∧ ((⟨⟨7, 0, 0, 0, ⟨0⟩, ⟨36⟩⟩, ⟨fun _ => 0⟩⟩ : Machine).add_with_carry 3).registers.accumulator
      = ((⟨⟨7, 0, 0, 0, ⟨0⟩, ⟨44⟩⟩, ⟨fun _ => 0⟩⟩ : Machine).add_with_carry 3).registers.accumulator
  ∧ ((⟨⟨7, 0, 0, 0, ⟨0⟩, ⟨36⟩⟩, ⟨fun _ => 0⟩⟩ : Machine).add_with_carry 3).registers.status.contains ps_carry
      = ((⟨⟨7, 0, 0, 0, ⟨0⟩, ⟨44⟩⟩, ⟨fun _ => 0⟩⟩ : Machine).add_with_carry 3).registers.status.contains ps_carry
  ∧ ((⟨⟨7, 0, 0, 0, ⟨0⟩, ⟨36⟩⟩, ⟨fun _ => 0⟩⟩ : Machine).add_with_carry 3).registers.status.contains ps_zero
      = ((⟨⟨7, 0, 0, 0, ⟨0⟩, ⟨44⟩⟩, ⟨fun _ => 0⟩⟩ : Machine).add_with_carry 3).registers.status.contains ps_zero
  ∧ ((⟨⟨7, 0, 0, 0, ⟨0⟩, ⟨36⟩⟩, ⟨fun _ => 0⟩⟩ : Machine).add_with_carry 3).registers.status.contains ps_negative
      = ((⟨⟨7, 0, 0, 0, ⟨0⟩, ⟨44⟩⟩, ⟨fun _ => 0⟩⟩ : Machine).add_with_carry 3).registers.status.contains ps_negative
  ∧ ((⟨⟨7, 0, 0, 0, ⟨0⟩, ⟨36⟩⟩, ⟨fun _ => 0⟩⟩ : Machine).add_with_carry 3).registers.status.contains ps_overflow
      = ((⟨⟨7, 0, 0, 0, ⟨0⟩, ⟨44⟩⟩, ⟨fun _ => 0⟩⟩ : Machine).add_with_carry 3).registers.status.contains ps_overflow := by
  refine ⟨by decide, by decide, ?_⟩
  exact c9_decimal_mode_independent
    ⟨⟨7, 0, 0, 0, ⟨0⟩, ⟨36⟩⟩, ⟨fun _ => 0⟩⟩
    ⟨⟨7, 0, 0, 0, ⟨0⟩, ⟨44⟩⟩, ⟨fun _ => 0⟩⟩ 3 (by decide) (by decide)

end Emu6502